import Mathlib

/-!
Verification of the soundcloud-pipeline repository (src/pipeline_run.py and
src/run_pipeline.py) against its natural-language specification.

The Python code is shallowly embedded: JSON dictionaries become structures with
`Option`-valued fields (where both "key absent" and "value null" must be
distinguished, a field is `Option (Option _)`: `none` = key absent,
`some none` = key present with null), Python dicts used as maps become
association lists with insert-or-overwrite semantics, and network I/O is
replaced by explicit response oracles passed as function arguments.
-/

namespace SoundcloudPipeline

/-! ## Association lists: model of a Python `dict` keyed by strings.
`aupsert` is `d[k] = v`: overwrite in place on key match, else append at the
end, mirroring Python's insertion-ordered dicts (keys are unique in a dict, so
overwriting the first occurrence is exact). `alookup` is `d.get(k)`. -/

def alookup {β : Type} : List (String × β) → String → Option β
  | [], _ => none
  | p :: rest, k => if p.1 = k then some p.2 else alookup rest k

def aupsert {β : Type} : List (String × β) → String → β → List (String × β)
  | [], k, v => [(k, v)]
  | p :: rest, k, v => if p.1 = k then (k, v) :: rest else p :: aupsert rest k v

theorem alookup_aupsert {β : Type} (m : List (String × β)) (k k' : String)
    (v : β) :
    alookup (aupsert m k v) k' = if k' = k then some v else alookup m k' := by
  induction m with
  | nil =>
    by_cases hk : k' = k
    · simp [aupsert, alookup, hk]
    · have : ¬ k = k' := fun h => hk h.symm
      simp [aupsert, alookup, hk, this]
  | cons p rest ih =>
    by_cases hp : p.1 = k
    · by_cases hk : k' = k
      · simp [aupsert, alookup, hp, hk]
      · have : ¬ k = k' := fun h => hk h.symm
        have hpk' : ¬ p.1 = k' := by rw [hp]; exact this
        simp [aupsert, alookup, hp, hk, this, hpk']
    · by_cases hp' : p.1 = k'
      · have : ¬ k' = k := by
          intro h
          exact hp (hp'.trans h)
        simp [aupsert, alookup, hp, hp', this]
      · simp [aupsert, alookup, hp, hp', ih]

/-! ## Track records and the metric-completeness repair loop
(src/pipeline_run.py, `track_metrics_any_missing` and `sc_hydrate_tracks_safe`).

A hydrated track is a JSON dict; the fields the repair loop inspects are the
`urn` and the four engagement metrics.  `tr.get(k)` returns Python `None` both
when the key is absent and when its value is JSON null, so a metric is modelled
as `Option Int` with `none` covering absent-or-null. -/

structure Track where
  urn : Option String
  playback_count : Option Int
  favoritings_count : Option Int
  comment_count : Option Int
  reposts_count : Option Int
deriving DecidableEq

/-- `track_metrics_any_missing(tr)`: true iff any of the four engagement
metrics is `None` (zero is valid data; only null/absent is a problem). -/
def track_metrics_any_missing (tr : Track) : Bool :=
  tr.playback_count.isNone || tr.favoritings_count.isNone ||
    tr.comment_count.isNone || tr.reposts_count.isNone

/-- The indexing loop `for t in tracks: u = t.get("urn"); if u: by_urn[u] = t`
(a falsy urn — `None` or the empty string — is skipped). -/
def indexByUrn (ts : List Track) (m : List (String × Track)) :
    List (String × Track) :=
  ts.foldl (fun m t =>
    match t.urn with
    | some u => if u = "" then m else aupsert m u t
    | none => m) m

/-- The per-round to-fix set: `set(urns) - set(by_urn.keys())` unioned with
the urns of indexed tracks having a missing metric.  Python builds a `set`;
the claims depend only on membership and emptiness, which the list
concatenation below reproduces exactly. -/
def toFix (urns : List String) (m : List (String × Track)) : List String :=
  urns.filter (fun u => (alookup m u).isNone) ++
    (m.filter (fun p => track_metrics_any_missing p.2)).map Prod.fst

/-- The bounded repair rounds of `sc_hydrate_tracks_safe`: up to `rounds`
times, stop if the to-fix set is empty, otherwise re-hydrate and merge the
refreshed records into the index (overwrite on urn match).  `resp i` is the
upstream's response to the `i`-th hydration call of this loop (the network is
an oracle; the loop never inspects which urns were requested beyond the
emptiness test, and the theorems quantify over all oracles). -/
def hydrateRounds (resp : Nat → List Track) (urns : List String) :
    Nat → Nat → List (String × Track) → List (String × Track)
  | _, 0, m => m
  | callIdx, rounds + 1, m =>
    if (toFix urns m).isEmpty then m
    else hydrateRounds resp urns (callIdx + 1) rounds (indexByUrn (resp callIdx) m)

/-- `sc_hydrate_tracks_safe`: initial hydration (call 0), up to `maxRounds`
repair rounds, then output `[by_urn[u] for u in urns if u in by_urn]` — the
resolved records in the caller's input order. -/
def sc_hydrate_tracks_safe (resp : Nat → List Track) (urns : List String)
    (maxRounds : Nat) : List Track :=
  if urns.isEmpty then []
  else
    (urns.filterMap
      (alookup (hydrateRounds resp urns 1 maxRounds (indexByUrn (resp 0) []))))

/-- Invariant of the urn index: a record stored under key `k` carries
`urn = some k`. -/
def UrnIndexInv (m : List (String × Track)) : Prop :=
  ∀ k t, alookup m k = some t → t.urn = some k

theorem urnIndexInv_nil : UrnIndexInv [] := by
  intro k t h
  simp [alookup] at h

theorem urnIndexInv_aupsert {m : List (String × Track)} (hm : UrnIndexInv m)
    {k : String} {v : Track} (hv : v.urn = some k) :
    UrnIndexInv (aupsert m k v) := by
  intro k' t h
  rw [alookup_aupsert] at h
  by_cases hk : k' = k
  · rw [if_pos hk] at h
    cases h
    rw [hv, hk]
  · rw [if_neg hk] at h
    exact hm k' t h

theorem urnIndexInv_indexByUrn {m : List (String × Track)} (hm : UrnIndexInv m)
    (ts : List Track) : UrnIndexInv (indexByUrn ts m) := by
  induction ts generalizing m with
  | nil => exact hm
  | cons t rest ih =>
    show UrnIndexInv (indexByUrn rest _)
    cases hu : t.urn with
    | none => simpa [indexByUrn, hu] using ih hm
    | some u =>
      by_cases he : u = ""
      · simpa [indexByUrn, hu, he] using ih hm
      · simpa [indexByUrn, hu, he] using ih (urnIndexInv_aupsert hm hu)

theorem urnIndexInv_hydrateRounds {m : List (String × Track)}
    (hm : UrnIndexInv m) (resp : Nat → List Track) (urns : List String)
    (callIdx rounds : Nat) :
    UrnIndexInv (hydrateRounds resp urns callIdx rounds m) := by
  induction rounds generalizing callIdx m with
  | zero => exact hm
  | succ r ih =>
    rw [hydrateRounds]
    by_cases h : (toFix urns m).isEmpty
    · simpa [h] using hm
    · simpa [h] using ih (urnIndexInv_indexByUrn hm (resp callIdx)) (callIdx + 1)

/-- Projecting the output's urns: under the index invariant, the urns of
`urns.filterMap (alookup m)` are exactly the input urns that resolved,
tagged with `some`, in input order. -/
theorem filterMap_alookup_urns {m : List (String × Track)} (hm : UrnIndexInv m) :
    ∀ urns : List String,
      (urns.filterMap (alookup m)).map Track.urn =
        (urns.filter (fun u => (alookup m u).isSome)).map some := by
  intro urns
  induction urns with
  | nil => rfl
  | cons u rest ih =>
    cases h : alookup m u with
    | none => simpa [List.filterMap_cons, List.filter_cons, h] using ih
    | some t =>
      have ht : t.urn = some u := hm u t h
      simpa [List.filterMap_cons, List.filter_cons, h, ht] using ih

/-- C1 (amended: the input identifier list is duplicate-free — the raw claim
fails on duplicated inputs, see the counterexample): the repair loop
`sc_hydrate_tracks_safe` returns records in the same relative order as the
caller's input identifiers (the output's urns are a sublist of the input urns),
an identifier that never resolved in any round is simply omitted (every output
record is the resolved record of some input identifier — no null padding), and
each identifier appears at most once in the output. -/
theorem sc_hydrate_tracks_safe_order (resp : Nat → List Track)
    (urns : List String) (maxRounds : Nat) (hnd : urns.Nodup) :
    ((sc_hydrate_tracks_safe resp urns maxRounds).map Track.urn).Sublist
        (urns.map some) ∧
    ((sc_hydrate_tracks_safe resp urns maxRounds).map Track.urn).Nodup ∧
    (∀ t ∈ sc_hydrate_tracks_safe resp urns maxRounds,
      ∃ u ∈ urns, t.urn = some u) := by
  by_cases hempty : urns.isEmpty
  · rw [List.isEmpty_iff] at hempty
    subst hempty
    simp [sc_hydrate_tracks_safe]
  · have hinv : UrnIndexInv
        (hydrateRounds resp urns 1 maxRounds (indexByUrn (resp 0) [])) :=
      urnIndexInv_hydrateRounds
        (urnIndexInv_indexByUrn urnIndexInv_nil (resp 0)) resp urns 1 maxRounds
    have heq : sc_hydrate_tracks_safe resp urns maxRounds =
        urns.filterMap
          (alookup (hydrateRounds resp urns 1 maxRounds (indexByUrn (resp 0) []))) := by
      simp [sc_hydrate_tracks_safe, hempty]
    have hmap := filterMap_alookup_urns hinv urns
    refine ⟨?_, ?_, ?_⟩
    · rw [heq, hmap]
      exact (List.filter_sublist urns).map some
    · rw [heq, hmap]
      exact (hnd.filter _).map (Option.some_injective String)
    · intro t ht
      rw [heq] at ht
      obtain ⟨u, hu, hl⟩ := List.mem_filterMap.mp ht
      exact ⟨u, hu, hinv u t hl⟩

/-- A single complete track with urn "a" (all four engagement metrics present
and zero), and an oracle that answers every hydration call with it. -/
def respW : Nat → List Track :=
  fun _ => [⟨some "a", some 0, some 0, some 0, some 0⟩]

/-- Witness for C1's theorem at a concrete input. -/
theorem sc_hydrate_tracks_safe_order_witness :
    ((sc_hydrate_tracks_safe respW ["a"] 3).map Track.urn).Sublist
        ((["a"] : List String).map some) ∧
    ((sc_hydrate_tracks_safe respW ["a"] 3).map Track.urn).Nodup ∧
    (∀ t ∈ sc_hydrate_tracks_safe respW ["a"] 3,
      ∃ u ∈ (["a"] : List String), t.urn = some u) :=
  sc_hydrate_tracks_safe_order respW ["a"] 3 (by decide)

/-- Counterexample to C1 as frozen: on the duplicated input identifier list
`["a", "a"]` (with an upstream that resolves "a" completely), the identifier
"a" appears twice in the output, violating "each identifier appears at most
once in the output". -/
theorem c1_duplicate_input_counterexample :
    (sc_hydrate_tracks_safe respW ["a", "a"] 3).map Track.urn =
        [some "a", some "a"] ∧
    ¬ ((sc_hydrate_tracks_safe respW ["a", "a"] 3).map Track.urn).Nodup := by
  constructor
  · decide
  · decide

theorem alookup_eq_some_iff {β : Type} (m : List (String × β))
    (hkeys : (m.map Prod.fst).Nodup) (u : String) (t : β) :
    alookup m u = some t ↔ (u, t) ∈ m := by
  induction m with
  | nil => simp [alookup]
  | cons p rest ih =>
    rw [List.map_cons, List.nodup_cons] at hkeys
    by_cases hp : p.1 = u
    · have hnotin : (u, t) ∉ rest := by
        intro hmem
        exact hkeys.1 (hp ▸ List.mem_map.mpr ⟨(u, t), hmem, rfl⟩)
      constructor
      · intro h
        rw [alookup, if_pos hp] at h
        have hpt : p = (u, t) := by
          cases p
          cases h
          simp_all
        exact List.mem_cons.mpr (Or.inl hpt.symm)
      · intro h
        rcases List.mem_cons.mp h with h | h
        · rw [alookup, if_pos hp, ← h]
        · exact absurd h hnotin
    · rw [alookup, if_neg hp, ih hkeys.2]
      constructor
      · exact fun h => List.mem_cons_of_mem p h
      · intro h
        rcases List.mem_cons.mp h with h | h
        · exact absurd (congrArg Prod.fst h).symm hp
        · exact h

/-- C2: a hydrated track record is classified as needing repair — its
identifier enters the to-fix set — exactly when the identifier is an input urn
with no indexed result, or its indexed record has at least one of the four
engagement metrics null/absent; and a record is metric-complete exactly when
all four metrics carry values (so a metric value of 0 does not trigger
repair).  The unique-keys hypothesis holds of every Python dict. -/
theorem toFix_membership (urns : List String) (m : List (String × Track))
    (u : String) (hkeys : (m.map Prod.fst).Nodup) :
    (u ∈ toFix urns m ↔
      (u ∈ urns ∧ alookup m u = none) ∨
      (∃ t, alookup m u = some t ∧ track_metrics_any_missing t = true)) ∧
    (∀ t : Track, track_metrics_any_missing t = false ↔
      (t.playback_count ≠ none ∧ t.favoritings_count ≠ none ∧
       t.comment_count ≠ none ∧ t.reposts_count ≠ none)) := by
  constructor
  · unfold toFix
    rw [List.mem_append]
    constructor
    · rintro (h | h)
      · rw [List.mem_filter] at h
        exact Or.inl ⟨h.1, by simpa using h.2⟩
      · rw [List.mem_map] at h
        obtain ⟨p, hp, hfst⟩ := h
        rw [List.mem_filter] at hp
        refine Or.inr ⟨p.2, ?_, hp.2⟩
        rw [alookup_eq_some_iff m hkeys]
        have : (u, p.2) = p := by
          cases p
          simp_all
        rw [this]
        exact hp.1
    · rintro (⟨hu, hnone⟩ | ⟨t, hsome, hmiss⟩)
      · exact Or.inl (List.mem_filter.mpr ⟨hu, by simp [hnone]⟩)
      · exact Or.inr (List.mem_map.mpr ⟨(u, t),
          List.mem_filter.mpr
            ⟨(alookup_eq_some_iff m hkeys u t).mp hsome, hmiss⟩, rfl⟩)
  · intro t
    simp [track_metrics_any_missing, Option.isNone_iff_eq_none, and_assoc,
      Option.isSome_iff_ne_none]

/-- The complete zero-metric track and a one-entry index holding it. -/
def tComplete : Track := ⟨some "a", some 0, some 0, some 0, some 0⟩

def mW : List (String × Track) := [("a", tComplete)]

/-- Witness for C2's theorem at a concrete input: the unresolved urn "b" is
in the to-fix set; "a", resolved with all metrics zero, is not. -/
theorem toFix_membership_witness :
    ("b" ∈ toFix ["a", "b"] mW) ∧ ¬ ("a" ∈ toFix ["a", "b"] mW) := by
  constructor
  · exact (toFix_membership ["a", "b"] mW "b" (by decide)).1.mpr
      (Or.inl ⟨by decide, by decide⟩)
  · intro h
    rcases (toFix_membership ["a", "b"] mW "a" (by decide)).1.mp h with
      ⟨-, h2⟩ | ⟨t, h2, h3⟩
    · exact absurd h2 (by decide)
    · have ht : t = tComplete := by
        have hl : alookup mW "a" = some tComplete := by decide
        rw [hl] at h2
        exact (Option.some.inj h2).symm
      subst ht
      exact absurd h3 (by decide)

/-! ## Rate-limited HTTP client (src/pipeline_run.py, `sc_get_with_retry`).

Each `session.get` either fails at the network level
(`ChunkedEncodingError` / `ConnectionError`: connection reset, truncated
response) or yields a response with a status code.  The oracle `resp i` is the
outcome of the `i`-th attempt (attempts are numbered from 1 as in the source).
The result is either a returned response, a raised `HTTPError` carrying the
status (`raise_for_status` raises for 400–599), or a re-raised network error. -/

inductive GetResult where
  | net : GetResult
  | http : Nat → GetResult
deriving DecidableEq

inductive RetryResult where
  | raiseNet : RetryResult
  | raiseHttp : Nat → RetryResult
  | ok : Nat → RetryResult
deriving DecidableEq

def RETRY_STATUS : List Nat := [429, 500, 502, 503, 504]

/-- `resp.raise_for_status()` followed by `return resp`. -/
def raiseForStatus (s : Nat) : RetryResult :=
  if 400 ≤ s ∧ s < 600 then .raiseHttp s else .ok s

/-- The retry loop of `sc_get_with_retry`, instrumented with the attempt
number at which it exits.  A network error retries while
`attempt < max_retries`, else re-raises; a response with a retryable status
retries while `attempt < max_retries`, else falls through to
`raise_for_status`. -/
def scGetRetryGo (resp : Nat → GetResult) (maxRetries attempt : Nat) :
    RetryResult × Nat :=
  match resp attempt with
  | .net =>
    if h : attempt < maxRetries then scGetRetryGo resp maxRetries (attempt + 1)
    else (.raiseNet, attempt)
  | .http s =>
    if h : attempt < maxRetries then
      if s ∈ RETRY_STATUS then scGetRetryGo resp maxRetries (attempt + 1)
      else (raiseForStatus s, attempt)
    else (raiseForStatus s, attempt)
termination_by maxRetries - attempt
decreasing_by
  · omega
  · omega

/-- `sc_get_with_retry(session, url)` with the source's `max_retries=4`. -/
def sc_get_with_retry (resp : Nat → GetResult) : RetryResult :=
  (scGetRetryGo resp 4 1).1

theorem scGetRetryGo_snd_le (resp : Nat → GetResult) (maxRetries : Nat) :
    ∀ k attempt, maxRetries - attempt ≤ k → attempt ≤ maxRetries →
      (scGetRetryGo resp maxRetries attempt).2 ≤ maxRetries := by
  intro k
  induction k with
  | zero =>
    intro attempt hk hle
    have heq : ¬ attempt < maxRetries := by omega
    rw [scGetRetryGo]
    cases resp attempt with
    | net => simp [heq, hle]
    | http s => simp [heq, hle]
  | succ k ih =>
    intro attempt hk hle
    by_cases hlt : attempt < maxRetries
    · rw [scGetRetryGo]
      cases resp attempt with
      | net =>
        simpa [hlt] using ih (attempt + 1) (by omega) (by omega)
      | http s =>
        by_cases hs : s ∈ RETRY_STATUS
        · simpa [hlt, hs] using ih (attempt + 1) (by omega) (by omega)
        · simp [hlt, hs, hle]
    · rw [scGetRetryGo]
      cases resp attempt with
      | net => simp [hlt, hle]
      | http s => simp [hlt, hle]

/-- C4: the rate-limited client (a) uses at most 4 attempts; (b) raises
immediately, on the first attempt, for a non-retryable 4xx status (other than
429); (c) when every attempt yields a retryable status ({429, 500, 502, 503,
504}), the budget is exhausted and the 4th attempt's status is raised as an
HTTP error carrying that status; (d) a success status returns at once without
retrying. -/
theorem sc_get_with_retry_spec (resp : Nat → GetResult) :
    ((scGetRetryGo resp 4 1).2 ≤ 4) ∧
    (∀ s, resp 1 = .http s → 400 ≤ s → s < 500 → s ≠ 429 →
      scGetRetryGo resp 4 1 = (.raiseHttp s, 1)) ∧
    ((∀ i, 1 ≤ i → i ≤ 4 → ∃ s, resp i = .http s ∧ s ∈ RETRY_STATUS) →
      ∃ s4, resp 4 = .http s4 ∧ scGetRetryGo resp 4 1 = (.raiseHttp s4, 4)) ∧
    (∀ s, resp 1 = .http s → s ∉ RETRY_STATUS → ¬ (400 ≤ s ∧ s < 600) →
      scGetRetryGo resp 4 1 = (.ok s, 1)) := by
  refine ⟨?_, ?_, ?_, ?_⟩
  · exact scGetRetryGo_snd_le resp 4 4 1 (by omega) (by omega)
  · intro s h1 h400 h500 h429
    have hs : s ∉ RETRY_STATUS := by
      simp only [RETRY_STATUS, List.mem_cons, List.not_mem_nil, or_false]
      omega
    rw [scGetRetryGo, h1]
    simp only [show (1:Nat) < 4 from by omega, dif_pos, if_neg hs]
    rw [raiseForStatus, if_pos ⟨h400, by omega⟩]
  · intro hall
    obtain ⟨s1, h1, hs1⟩ := hall 1 (by omega) (by omega)
    obtain ⟨s2, h2, hs2⟩ := hall 2 (by omega) (by omega)
    obtain ⟨s3, h3, hs3⟩ := hall 3 (by omega) (by omega)
    obtain ⟨s4, h4, hs4⟩ := hall 4 (by omega) (by omega)
    refine ⟨s4, h4, ?_⟩
    have hrange : 400 ≤ s4 ∧ s4 < 600 := by
      simp only [RETRY_STATUS, List.mem_cons, List.not_mem_nil, or_false] at hs4
      omega
    rw [scGetRetryGo, h1]
    simp only [show (1:Nat) < 4 from by omega, dif_pos, if_pos hs1]
    rw [scGetRetryGo, h2]
    simp only [show (2:Nat) < 4 from by omega, dif_pos, if_pos hs2]
    rw [scGetRetryGo, h3]
    simp only [show (3:Nat) < 4 from by omega, dif_pos, if_pos hs3]
    rw [scGetRetryGo, h4]
    simp only [show ¬ (4:Nat) < 4 from by omega, dif_neg, not_false_iff]
    rw [raiseForStatus, if_pos hrange]
  · intro s h1 hs hrange
    rw [scGetRetryGo, h1]
    simp only [show (1:Nat) < 4 from by omega, dif_pos, if_neg hs]
    rw [raiseForStatus, if_neg hrange]

/-- An upstream that answers 404 to every attempt. -/
def resp404 : Nat → GetResult := fun _ => .http 404

/-- Witness for C4's theorem: a plain 404 raises immediately on attempt 1. -/
theorem sc_get_with_retry_spec_witness :
    scGetRetryGo resp404 4 1 = (.raiseHttp 404, 1) :=
  (sc_get_with_retry_spec resp404).2.1 404 rfl (by omega) (by omega) (by omega)

/-! ## Paginated collection fetcher (src/pipeline_run.py and
src/run_pipeline.py, `sc_paged_get`).

Each page response is a JSON object with an optional `collection` array
(`js.get("collection") or []`) and an optional `next_href` cursor.  The
oracle `pages url` is the upstream's response for `url`.  The Python loop
`while next_url:` has no termination guarantee of its own, so the walk is
modelled with explicit fuel: `none` means the loop was still running after
`fuel` requests. -/

structure SCPage (α : Type) where
  collection : Option (List α)
  next_href : Option String

/-- Python truthiness of the cursor: the loop exits when `next_href` is
`None` or the empty string. -/
def nextFalsy (o : Option String) : Bool :=
  match o with
  | none => true
  | some s => s == ""

def scPagedGetAux {α : Type} (pages : String → SCPage α) :
    Nat → String → List α → Option (List α)
  | 0, _, _ => none
  | fuel + 1, url, acc =>
    let js := pages url
    let acc2 := acc ++ js.collection.getD []
    match js.next_href with
    | none => some acc2
    | some nxt => if nxt = "" then some acc2 else scPagedGetAux pages fuel nxt acc2

/-- `sc_paged_get(session, url, params)`, observed after at most `fuel`
page requests. -/
def sc_paged_get {α : Type} (pages : String → SCPage α) (fuel : Nat)
    (url : String) : Option (List α) :=
  scPagedGetAux pages fuel url []

/-- A finite cursor walk: from `url`, following `next_href` until it is
falsy yields exactly the concatenation of the pages' `collection` arrays in
page order (item order within page preserved by `++`). -/
inductive PagedWalk {α : Type} (pages : String → SCPage α) :
    String → List α → Prop where
  | last (url : String) (h : nextFalsy (pages url).next_href = true) :
      PagedWalk pages url ((pages url).collection.getD [])
  | step (url nxt : String) (rest : List α)
      (h : (pages url).next_href = some nxt) (hne : ¬ nxt = "")
      (w : PagedWalk pages nxt rest) :
      PagedWalk pages url ((pages url).collection.getD [] ++ rest)

/-- The fetcher terminates on `url` if some finite number of page requests
makes it return. -/
def SCTerminates {α : Type} (pages : String → SCPage α) (url : String) : Prop :=
  ∃ fuel out, sc_paged_get pages fuel url = some out

theorem scPagedGetAux_shift {α : Type} (pages : String → SCPage α) :
    ∀ fuel url acc, scPagedGetAux pages fuel url acc =
      (scPagedGetAux pages fuel url []).map (fun l => acc ++ l) := by
  intro fuel
  induction fuel with
  | zero => intro url acc; rfl
  | succ fuel ih =>
    intro url acc
    rw [scPagedGetAux, scPagedGetAux]
    cases hn : (pages url).next_href with
    | none => simp
    | some nxt =>
      by_cases he : nxt = ""
      · simp [he]
      · simp only [he, if_neg he, if_false]
        rw [ih nxt (acc ++ (pages url).collection.getD []),
          ih nxt ([] ++ (pages url).collection.getD [])]
        cases scPagedGetAux pages fuel nxt [] with
        | none => simp
        | some l => simp

theorem scPagedGetAux_sound {α : Type} (pages : String → SCPage α) :
    ∀ fuel url acc out, scPagedGetAux pages fuel url acc = some out →
      ∃ rest, out = acc ++ rest ∧ PagedWalk pages url rest := by
  intro fuel
  induction fuel with
  | zero => intro url acc out h; cases h
  | succ fuel ih =>
    intro url acc out h
    cases hn : (pages url).next_href with
    | none =>
      rw [scPagedGetAux] at h
      simp only [hn] at h
      refine ⟨(pages url).collection.getD [], (Option.some.inj h).symm, ?_⟩
      refine PagedWalk.last url ?_
      rw [nextFalsy.eq_def, hn]
    | some nxt =>
      by_cases he : nxt = ""
      · rw [scPagedGetAux] at h
        simp only [hn, he, if_pos] at h
        refine ⟨(pages url).collection.getD [], (Option.some.inj h).symm, ?_⟩
        refine PagedWalk.last url ?_
        rw [nextFalsy.eq_def, hn, he]
        rfl
      · rw [scPagedGetAux] at h
        simp only [hn, if_neg he] at h
        obtain ⟨rest, hout, hw⟩ := ih nxt _ out h
        exact ⟨(pages url).collection.getD [] ++ rest, by
          rw [hout, List.append_assoc], PagedWalk.step url nxt rest hn he hw⟩

theorem pagedWalk_complete {α : Type} (pages : String → SCPage α)
    (url : String) (out : List α) (w : PagedWalk pages url out) :
    ∃ fuel, sc_paged_get pages fuel url = some out := by
  induction w with
  | last url h =>
    refine ⟨1, ?_⟩
    rw [sc_paged_get, scPagedGetAux]
    unfold nextFalsy at h
    cases hn : (pages url).next_href with
    | none => simp
    | some s =>
      rw [hn] at h
      have : s = "" := by simpa using h
      simp [this]
  | step url nxt rest h hne w ih =>
    obtain ⟨fuel, hf⟩ := ih
    refine ⟨fuel + 1, ?_⟩
    rw [sc_paged_get, scPagedGetAux]
    simp only [h, if_neg hne]
    rw [scPagedGetAux_shift pages fuel nxt]
    rw [sc_paged_get] at hf
    rw [hf]
    simp

/-- C5 (amended: absence — Python falsiness — of `next_href` is the *only*
termination signal, so a repeating cursor makes the fetcher loop forever; the
non-looping conjunct of the frozen claim is refuted by
`c5_repeating_cursor_counterexample`): whenever the fetcher returns, its
output is exactly the pages' `collection` entries accumulated in page order
and item order within page along the `next_href` chain down to a falsy
cursor; and every such finite chain is reached with enough fuel. -/
theorem sc_paged_get_walk {α : Type} (pages : String → SCPage α) :
    (∀ fuel url out, sc_paged_get pages fuel url = some out →
      PagedWalk pages url out) ∧
    (∀ url out, PagedWalk pages url out →
      ∃ fuel, sc_paged_get pages fuel url = some out) := by
  constructor
  · intro fuel url out h
    obtain ⟨rest, hout, hw⟩ := scPagedGetAux_sound pages fuel url [] out h
    simpa [hout] using hw
  · exact pagedWalk_complete pages

/-- A two-page site: "a" links to "b", "b" ends the chain. -/
def pagesW : String → SCPage Nat := fun url =>
  if url = "a" then ⟨some [1, 2], some "b"⟩
  else if url = "b" then ⟨some [3], none⟩
  else ⟨none, none⟩

/-- Witness for C5's theorem: the two-page walk is recovered from a
terminating run. -/
theorem sc_paged_get_walk_witness : PagedWalk pagesW "a" [1, 2, 3] :=
  (sc_paged_get_walk pagesW).1 5 "a" [1, 2, 3] (by decide)

/-- An upstream whose every response repeats the cursor "u". -/
def pagesLoop : String → SCPage Nat := fun _ => ⟨some [0], some "u"⟩

theorem pagesLoop_aux_none :
    ∀ fuel url acc, scPagedGetAux pagesLoop fuel url acc = none := by
  intro fuel
  induction fuel with
  | zero => intro url acc; rfl
  | succ fuel ih =>
    intro url acc
    rw [scPagedGetAux]
    simpa [pagesLoop] using ih "u" _

/-- Counterexample to C5 as frozen: with a repeating `next_href` the fetcher
never terminates — "does not loop forever if next_href repeats" is false of
the code, precisely because absence is the only termination signal. -/
theorem c5_repeating_cursor_counterexample : ¬ SCTerminates pagesLoop "u" := by
  rintro ⟨fuel, out, h⟩
  rw [sc_paged_get, pagesLoop_aux_none] at h
  cases h

/-! ## Two-pass run controller (src/pipeline_run.py, `main`, passes 1 and 2)
and the single-pass controller (src/run_pipeline.py, `main`).

The per-artist collector (profile fetch, track listing, hydration, albums,
join) either produces data or raises; the controller only observes which of
the two happened and, on success, how many track and album rows the artist
contributes.  `att isRetryPass urn` is that outcome: the collector is called
once per artist per pass, and its two invocations may differ (the network
changed), hence the pass flag.  Rows are recorded by the artist urn that
produced them, which is the only field the claims count. -/

inductive SCFailure where
  | http : Option Nat → String → SCFailure
  | exc : String → SCFailure
deriving DecidableEq

def SCFailure.stepTag : SCFailure → String
  | .http _ _ => "retry_http"
  | .exc _ => "retry_exception"

def SCFailure.statusOf : SCFailure → Option Nat
  | .http s _ => s
  | .exc _ => none

def SCFailure.msgOf : SCFailure → String
  | .http _ m => m
  | .exc m => m

structure ArtistData where
  numTracks : Nat
  numAlbums : Nat
deriving DecidableEq

structure ErrorRow where
  artist_urn : String
  step : String
  http_status : Option Nat
  message : String
deriving DecidableEq

/-- The error record appended in pass 2: step `retry_http` with the HTTP
status for an `HTTPError`, step `retry_exception` with no status otherwise. -/
def mkErrorRow (a : String) (f : SCFailure) : ErrorRow :=
  ⟨a, f.stepTag, f.statusOf, f.msgOf⟩

structure RunState where
  artistRows : List String
  trackRows : List String
  albumRows : List String
  errorRows : List ErrorRow
  successUrns : List String
  tracksTotal : Nat
  albumsTotal : Nat
  retryQ : List String

def initState : RunState := ⟨[], [], [], [], [], 0, 0, []⟩

/-- `success_urns.add(a)` — a Python set, modelled as a duplicate-free list. -/
def setInsert (s : List String) (a : String) : List String :=
  if a ∈ s then s else s ++ [a]

/-- The success branch shared by both passes: append the artist-summary row,
one album row per album, one track row per hydrated track, bump the totals,
and add the artist to the success set. -/
def recordSuccess (st : RunState) (a : String) (d : ArtistData) : RunState :=
  { st with
    artistRows := st.artistRows ++ [a]
    albumRows := st.albumRows ++ List.replicate d.numAlbums a
    trackRows := st.trackRows ++ List.replicate d.numTracks a
    tracksTotal := st.tracksTotal + d.numTracks
    albumsTotal := st.albumsTotal + d.numAlbums
    successUrns := setInsert st.successUrns a }

/-- Pass 1: failures are deferred to the retry queue, no error rows. -/
def pass1 (att : Bool → String → Except SCFailure ArtistData) :
    List String → RunState → RunState
  | [], st => st
  | a :: rest, st =>
    match att false a with
    | .ok d => pass1 att rest (recordSuccess st a d)
    | .error _ => pass1 att rest { st with retryQ := st.retryQ ++ [a] }

/-- Pass 2 over the retry queue: failures append an error record. -/
def pass2 (att : Bool → String → Except SCFailure ArtistData) :
    List String → RunState → RunState
  | [], st => st
  | a :: rest, st =>
    match att true a with
    | .ok d => pass2 att rest (recordSuccess st a d)
    | .error f =>
      pass2 att rest { st with errorRows := st.errorRows ++ [mkErrorRow a f] }

def runTwoPass (att : Bool → String → Except SCFailure ArtistData)
    (artists : List String) : RunState :=
  let st1 := pass1 att artists initState
  pass2 att st1.retryQ st1

/-- The run-summary counters computed at the end of `main`:
`ok = len(success_urns)`, `fail = n - ok`, `errors = len(error_rows)`. -/
structure RunSummary where
  artists_in : Nat
  artists_ok : Nat
  artists_failed : Nat
  errors_total : Nat
deriving DecidableEq

def runSummaryOf (artists : List String) (st : RunState) : RunSummary :=
  ⟨artists.length, st.successUrns.length,
    artists.length - st.successUrns.length, st.errorRows.length⟩

/-- Whether the collector succeeds for artist `a` on the given pass. -/
def okP (att : Bool → String → Except SCFailure ArtistData) (p : Bool)
    (a : String) : Bool :=
  match att p a with
  | .ok _ => true
  | .error _ => false

/-- The track rows a pass's successes contribute, tagged by artist urn. -/
def passTrackRows (att : Bool → String → Except SCFailure ArtistData)
    (p : Bool) : List String → List String
  | [] => []
  | a :: rest =>
    (match att p a with
     | .ok d => List.replicate d.numTracks a
     | .error _ => []) ++ passTrackRows att p rest

def passAlbumRows (att : Bool → String → Except SCFailure ArtistData)
    (p : Bool) : List String → List String
  | [] => []
  | a :: rest =>
    (match att p a with
     | .ok d => List.replicate d.numAlbums a
     | .error _ => []) ++ passAlbumRows att p rest

/-- The error records pass 2 appends, one per still-failing artist. -/
def passErrRows (att : Bool → String → Except SCFailure ArtistData) :
    List String → List ErrorRow
  | [] => []
  | a :: rest =>
    (match att true a with
     | .ok _ => []
     | .error f => [mkErrorRow a f]) ++ passErrRows att rest

def insertAll (s : List String) (l : List String) : List String :=
  l.foldl setInsert s

theorem pass1_spec (att : Bool → String → Except SCFailure ArtistData)
    (l : List String) : ∀ st : RunState,
    pass1 att l st =
      ⟨st.artistRows ++ l.filter (okP att false),
       st.trackRows ++ passTrackRows att false l,
       st.albumRows ++ passAlbumRows att false l,
       st.errorRows,
       insertAll st.successUrns (l.filter (okP att false)),
       st.tracksTotal + (passTrackRows att false l).length,
       st.albumsTotal + (passAlbumRows att false l).length,
       st.retryQ ++ l.filter (fun a => ! okP att false a)⟩ := by
  induction l with
  | nil =>
    intro st
    simp [pass1, passTrackRows, passAlbumRows, insertAll]
  | cons a rest ih =>
    intro st
    cases h : att false a with
    | ok d =>
      simp only [pass1, h]
      rw [ih]
      simp [recordSuccess, okP, h, List.filter_cons, passTrackRows,
        passAlbumRows, insertAll, List.append_assoc, Nat.add_assoc]
    | error f =>
      simp only [pass1, h]
      rw [ih]
      simp [okP, h, List.filter_cons, passTrackRows, passAlbumRows,
        insertAll, List.append_assoc]

theorem pass2_spec (att : Bool → String → Except SCFailure ArtistData)
    (l : List String) : ∀ st : RunState,
    pass2 att l st =
      ⟨st.artistRows ++ l.filter (okP att true),
       st.trackRows ++ passTrackRows att true l,
       st.albumRows ++ passAlbumRows att true l,
       st.errorRows ++ passErrRows att l,
       insertAll st.successUrns (l.filter (okP att true)),
       st.tracksTotal + (passTrackRows att true l).length,
       st.albumsTotal + (passAlbumRows att true l).length,
       st.retryQ⟩ := by
  induction l with
  | nil =>
    intro st
    simp [pass2, passTrackRows, passAlbumRows, passErrRows, insertAll]
  | cons a rest ih =>
    intro st
    cases h : att true a with
    | ok d =>
      simp only [pass2, h]
      rw [ih]
      simp [recordSuccess, okP, h, List.filter_cons, passTrackRows,
        passAlbumRows, passErrRows, insertAll, List.append_assoc, Nat.add_assoc]
    | error f =>
      simp only [pass2, h]
      rw [ih]
      simp [okP, h, List.filter_cons, passTrackRows, passAlbumRows,
        passErrRows, insertAll, List.append_assoc]

theorem insertAll_of_disjoint :
    ∀ (l s : List String), l.Nodup → (∀ a ∈ l, a ∉ s) →
      insertAll s l = s ++ l := by
  intro l
  induction l with
  | nil => intro s _ _; simp [insertAll]
  | cons a rest ih =>
    intro s hnd hdisj
    rw [List.nodup_cons] at hnd
    have h1 : setInsert s a = s ++ [a] := by
      rw [setInsert, if_neg (hdisj a (List.mem_cons_self a rest))]
    have h2 : ∀ b ∈ rest, b ∉ s ++ [a] := by
      intro b hb
      rw [List.mem_append, List.mem_singleton]
      rintro (hs | rfl)
      · exact hdisj b (List.mem_cons_of_mem a hb) hs
      · exact hnd.1 hb
    show insertAll (setInsert s a) rest = s ++ a :: rest
    rw [h1, ih (s ++ [a]) hnd.2 h2, List.append_assoc]
    rfl

theorem length_filter_partition (p : String → Bool) :
    ∀ l : List String,
      (l.filter p).length + (l.filter (fun a => ! p a)).length = l.length := by
  intro l
  induction l with
  | nil => rfl
  | cons a rest ih =>
    cases h : p a <;> simp [List.filter_cons, h, ← ih] <;> omega

theorem passErrRows_length (att : Bool → String → Except SCFailure ArtistData) :
    ∀ l : List String, (passErrRows att l).length =
      (l.filter (fun a => ! okP att true a)).length := by
  intro l
  induction l with
  | nil => rfl
  | cons a rest ih =>
    cases h : att true a <;>
      simp [passErrRows, h, okP, List.filter_cons, ih]

theorem mem_passTrackRows (att : Bool → String → Except SCFailure ArtistData)
    (p : Bool) (x : String) :
    ∀ l : List String, x ∈ passTrackRows att p l →
      ∃ a ∈ l, x = a ∧ okP att p a = true := by
  intro l
  induction l with
  | nil => intro h; cases h
  | cons a rest ih =>
    intro h
    rw [passTrackRows, List.mem_append] at h
    rcases h with h | h
    · cases hatt : att p a with
      | ok d =>
        rw [hatt] at h
        exact ⟨a, List.mem_cons_self a rest, List.eq_of_mem_replicate h,
          by rw [okP, hatt]⟩
      | error f =>
        rw [hatt] at h
        cases h
    · obtain ⟨b, hb, hx⟩ := ih h
      exact ⟨b, List.mem_cons_of_mem a hb, hx⟩

theorem mem_passAlbumRows (att : Bool → String → Except SCFailure ArtistData)
    (p : Bool) (x : String) :
    ∀ l : List String, x ∈ passAlbumRows att p l →
      ∃ a ∈ l, x = a ∧ okP att p a = true := by
  intro l
  induction l with
  | nil => intro h; cases h
  | cons a rest ih =>
    intro h
    rw [passAlbumRows, List.mem_append] at h
    rcases h with h | h
    · cases hatt : att p a with
      | ok d =>
        rw [hatt] at h
        exact ⟨a, List.mem_cons_self a rest, List.eq_of_mem_replicate h,
          by rw [okP, hatt]⟩
      | error f =>
        rw [hatt] at h
        cases h
    · obtain ⟨b, hb, hx⟩ := ih h
      exact ⟨b, List.mem_cons_of_mem a hb, hx⟩

theorem mem_passErrRows (att : Bool → String → Except SCFailure ArtistData)
    (r : ErrorRow) :
    ∀ l : List String, r ∈ passErrRows att l →
      ∃ a ∈ l, ∃ f, att true a = .error f ∧ r = mkErrorRow a f := by
  intro l
  induction l with
  | nil => intro h; cases h
  | cons b rest ih =>
    intro h
    rw [passErrRows, List.mem_append] at h
    rcases h with h | h
    · cases hatt : att true b with
      | ok d =>
        rw [hatt] at h
        cases h
      | error f =>
        rw [hatt] at h
        rw [List.mem_singleton] at h
        exact ⟨b, List.mem_cons_self b rest, f, hatt, h⟩
    · obtain ⟨a, ha, f, hf, hr⟩ := ih h
      exact ⟨a, List.mem_cons_of_mem b ha, f, hf, hr⟩

theorem passErrRows_filter_of_ok
    (att : Bool → String → Except SCFailure ArtistData) (a : String)
    (hok : okP att true a = true) (l : List String) :
    (passErrRows att l).filter (fun r => r.artist_urn == a) = [] := by
  rw [List.filter_eq_nil_iff]
  intro r hr
  obtain ⟨b, _, f, hf, hrow⟩ := mem_passErrRows att r l hr
  simp only [hrow, mkErrorRow, beq_iff_eq]
  rintro rfl
  rw [okP, hf] at hok
  cases hok

theorem passErrRows_filter_of_not_mem
    (att : Bool → String → Except SCFailure ArtistData) (a : String)
    (l : List String) (hmem : a ∉ l) :
    (passErrRows att l).filter (fun r => r.artist_urn == a) = [] := by
  rw [List.filter_eq_nil_iff]
  intro r hr
  obtain ⟨b, hb, f, _, hrow⟩ := mem_passErrRows att r l hr
  simp only [hrow, mkErrorRow, beq_iff_eq]
  rintro rfl
  exact hmem hb

theorem passErrRows_filter_of_error
    (att : Bool → String → Except SCFailure ArtistData) (a : String)
    (f : SCFailure) (hf : att true a = .error f) :
    ∀ l : List String, l.Nodup → a ∈ l →
      (passErrRows att l).filter (fun r => r.artist_urn == a) =
        [mkErrorRow a f] := by
  intro l
  induction l with
  | nil => intro _ h; cases h
  | cons b rest ih =>
    intro hnd hmem
    rw [List.nodup_cons] at hnd
    rcases List.mem_cons.mp hmem with rfl | hmem'
    · simp only [passErrRows, hf, List.filter_append]
      rw [passErrRows_filter_of_not_mem att a rest hnd.1]
      simp [List.filter_cons, mkErrorRow]
    · have hba : (b == a) = false := by
        rw [beq_eq_false_iff_ne]
        rintro rfl
        exact hnd.1 hmem'
      cases hatt : att true b with
      | ok d =>
        simp only [passErrRows, hatt, List.nil_append]
        exact ih hnd.2 hmem'
      | error g =>
        simp only [passErrRows, hatt, List.filter_append]
        rw [ih hnd.2 hmem']
        simp [List.filter_cons, mkErrorRow, hba]

/-- C3: under the two-pass run controller, an artist whose first-pass attempt
raises and whose second-pass attempt succeeds contributes exactly one
artist-summary row and zero error rows; an artist whose second-pass attempt
also raises contributes zero data rows (no artist-summary, track or album
rows) and exactly one error row carrying the failure's step tag and HTTP
status (if any).  The duplicate-free hypothesis is the controller's input
contract: the artist list is deduplicated on load. -/
theorem two_pass_outcome (att : Bool → String → Except SCFailure ArtistData)
    (artists : List String) (a : String) (hnd : artists.Nodup)
    (ha : a ∈ artists) :
    ((∃ f1, att false a = .error f1) → (∃ d, att true a = .ok d) →
      (runTwoPass att artists).artistRows.count a = 1 ∧
      (runTwoPass att artists).errorRows.filter
        (fun r => r.artist_urn == a) = []) ∧
    (∀ f1 f2, att false a = .error f1 → att true a = .error f2 →
      (runTwoPass att artists).artistRows.count a = 0 ∧
      (runTwoPass att artists).trackRows.count a = 0 ∧
      (runTwoPass att artists).albumRows.count a = 0 ∧
      (runTwoPass att artists).errorRows.filter (fun r => r.artist_urn == a) =
        [⟨a, f2.stepTag, f2.statusOf, f2.msgOf⟩]) := by
  have hArt : (runTwoPass att artists).artistRows =
      artists.filter (okP att false) ++
        (artists.filter (fun x => ! okP att false x)).filter (okP att true) := by
    simp [runTwoPass, pass2_spec, pass1_spec, initState]
  have hTrack : (runTwoPass att artists).trackRows =
      passTrackRows att false artists ++
        passTrackRows att true (artists.filter (fun x => ! okP att false x)) := by
    simp [runTwoPass, pass2_spec, pass1_spec, initState]
  have hAlbum : (runTwoPass att artists).albumRows =
      passAlbumRows att false artists ++
        passAlbumRows att true (artists.filter (fun x => ! okP att false x)) := by
    simp [runTwoPass, pass2_spec, pass1_spec, initState]
  have hErr : (runTwoPass att artists).errorRows =
      passErrRows att (artists.filter (fun x => ! okP att false x)) := by
    simp [runTwoPass, pass2_spec, pass1_spec, initState]
  constructor
  · rintro ⟨f1, hf1⟩ ⟨d, hd⟩
    have hok1 : okP att false a = false := by simp [okP, hf1]
    have hok2 : okP att true a = true := by simp [okP, hd]
    have haq : a ∈ artists.filter (fun x => ! okP att false x) :=
      List.mem_filter.mpr ⟨ha, by simp [hok1]⟩
    constructor
    · rw [hArt, List.count_append]
      have c1 : (artists.filter (okP att false)).count a = 0 := by
        apply List.count_eq_zero_of_not_mem
        intro hmem
        rw [(List.mem_filter.mp hmem).2] at hok1
        cases hok1
      have c2 : ((artists.filter (fun x => ! okP att false x)).filter
          (okP att true)).count a = 1 := by
        apply List.count_eq_one_of_mem ((hnd.filter _).filter _)
        exact List.mem_filter.mpr ⟨haq, hok2⟩
      omega
    · rw [hErr]
      exact passErrRows_filter_of_ok att a hok2 _
  · intro f1 f2 hf1 hf2
    have hok1 : okP att false a = false := by simp [okP, hf1]
    have hok2 : okP att true a = false := by simp [okP, hf2]
    have haq : a ∈ artists.filter (fun x => ! okP att false x) :=
      List.mem_filter.mpr ⟨ha, by simp [hok1]⟩
    refine ⟨?_, ?_, ?_, ?_⟩
    · rw [hArt, List.count_append]
      have c1 : (artists.filter (okP att false)).count a = 0 := by
        apply List.count_eq_zero_of_not_mem
        intro hmem
        rw [(List.mem_filter.mp hmem).2] at hok1
        cases hok1
      have c2 : ((artists.filter (fun x => ! okP att false x)).filter
          (okP att true)).count a = 0 := by
        apply List.count_eq_zero_of_not_mem
        intro hmem
        rw [(List.mem_filter.mp hmem).2] at hok2
        cases hok2
      omega
    · rw [hTrack, List.count_append]
      have c1 : (passTrackRows att false artists).count a = 0 := by
        apply List.count_eq_zero_of_not_mem
        intro hmem
        obtain ⟨b, _, rfl, hok⟩ := mem_passTrackRows att false a artists hmem
        rw [hok] at hok1
        cases hok1
      have c2 : (passTrackRows att true
          (artists.filter (fun x => ! okP att false x))).count a = 0 := by
        apply List.count_eq_zero_of_not_mem
        intro hmem
        obtain ⟨b, _, rfl, hok⟩ := mem_passTrackRows att true a _ hmem
        rw [hok] at hok2
        cases hok2
      omega
    · rw [hAlbum, List.count_append]
      have c1 : (passAlbumRows att false artists).count a = 0 := by
        apply List.count_eq_zero_of_not_mem
        intro hmem
        obtain ⟨b, _, rfl, hok⟩ := mem_passAlbumRows att false a artists hmem
        rw [hok] at hok1
        cases hok1
      have c2 : (passAlbumRows att true
          (artists.filter (fun x => ! okP att false x))).count a = 0 := by
        apply List.count_eq_zero_of_not_mem
        intro hmem
        obtain ⟨b, _, rfl, hok⟩ := mem_passAlbumRows att true a _ hmem
        rw [hok] at hok2
        cases hok2
      omega
    · rw [hErr]
      exact passErrRows_filter_of_error att a f2 hf2 _ (hnd.filter _) haq

/-- Two artists: "x" fails pass 1 with a generic exception and succeeds on
pass 2 with 2 tracks and 1 album; "y" fails both passes with HTTP 404. -/
def attW : Bool → String → Except SCFailure ArtistData := fun p a =>
  if a = "x" then (if p then .ok ⟨2, 1⟩ else .error (.exc "boom"))
  else if a = "y" then .error (.http (some 404) "not found")
  else .ok ⟨0, 0⟩

/-- Witness for C3's theorem at a concrete input. -/
theorem two_pass_outcome_witness :
    ((runTwoPass attW ["x", "y"]).artistRows.count "x" = 1 ∧
      (runTwoPass attW ["x", "y"]).errorRows.filter
        (fun r => r.artist_urn == "x") = []) ∧
    ((runTwoPass attW ["x", "y"]).artistRows.count "y" = 0 ∧
      (runTwoPass attW ["x", "y"]).trackRows.count "y" = 0 ∧
      (runTwoPass attW ["x", "y"]).albumRows.count "y" = 0 ∧
      (runTwoPass attW ["x", "y"]).errorRows.filter
        (fun r => r.artist_urn == "y") =
        [⟨"y", "retry_http", some 404, "not found"⟩]) := by
  constructor
  · exact (two_pass_outcome attW ["x", "y"] "x" (by decide) (by decide)).1
      ⟨.exc "boom", rfl⟩ ⟨⟨2, 1⟩, rfl⟩
  · exact (two_pass_outcome attW ["x", "y"] "y" (by decide) (by decide)).2
      (.http (some 404) "not found") (.http (some 404) "not found") rfl rfl

/-! ## Single-pass controller (src/run_pipeline.py, `main`): every failure is
final; `ok_count`/`fail_count` are incremented directly and one error record
(step `http` or `exception`) is appended per failing artist. -/

def SCFailure.stepTag1 : SCFailure → String
  | .http _ _ => "http"
  | .exc _ => "exception"

structure SPState where
  okCount : Nat
  failCount : Nat
  errorRows : List ErrorRow
deriving DecidableEq

def runSinglePass (att1 : String → Except SCFailure ArtistData) :
    List String → SPState → SPState
  | [], st => st
  | a :: rest, st =>
    match att1 a with
    | .ok _ => runSinglePass att1 rest { st with okCount := st.okCount + 1 }
    | .error f => runSinglePass att1 rest
        { st with
          failCount := st.failCount + 1
          errorRows := st.errorRows ++ [⟨a, f.stepTag1, f.statusOf, f.msgOf⟩] }

theorem runSinglePass_invariant (att1 : String → Except SCFailure ArtistData) :
    ∀ (l : List String) (st : SPState),
      (runSinglePass att1 l st).okCount + (runSinglePass att1 l st).failCount =
        st.okCount + st.failCount + l.length ∧
      (runSinglePass att1 l st).errorRows.length + st.failCount =
        (runSinglePass att1 l st).failCount + st.errorRows.length := by
  intro l
  induction l with
  | nil =>
    intro st
    simp only [runSinglePass, List.length_nil]
    omega
  | cons a rest ih =>
    intro st
    cases h : att1 a with
    | ok d =>
      simp only [runSinglePass, h]
      have := ih { st with okCount := st.okCount + 1 }
      constructor
      · rw [this.1]; simp; omega
      · have h2 := this.2; simpa using h2
    | error f =>
      simp only [runSinglePass, h]
      have := ih { st with
        failCount := st.failCount + 1
        errorRows := st.errorRows ++ [⟨a, f.stepTag1, f.statusOf, f.msgOf⟩] }
      constructor
      · rw [this.1]; simp; omega
      · have h2 := this.2; simp at h2; omega

/-- C10: the run-summary counters are mutually consistent for both
controllers.  Two-pass (pipeline_run.py): over a deduplicated artist list,
`artists_ok + artists_failed = artists_in` and
`errors_total = artists_failed`.  Single-pass (run_pipeline.py): for any
artist list, `ok_count + fail_count = n` and the number of error records
equals `fail_count`. -/
theorem run_summary_consistent
    (att : Bool → String → Except SCFailure ArtistData)
    (att1 : String → Except SCFailure ArtistData)
    (artists artists1 : List String) (hnd : artists.Nodup) :
    ((runSummaryOf artists (runTwoPass att artists)).artists_ok +
        (runSummaryOf artists (runTwoPass att artists)).artists_failed =
        (runSummaryOf artists (runTwoPass att artists)).artists_in ∧
      (runSummaryOf artists (runTwoPass att artists)).errors_total =
        (runSummaryOf artists (runTwoPass att artists)).artists_failed) ∧
    ((runSinglePass att1 artists1 ⟨0, 0, []⟩).okCount +
        (runSinglePass att1 artists1 ⟨0, 0, []⟩).failCount =
        artists1.length ∧
      (runSinglePass att1 artists1 ⟨0, 0, []⟩).errorRows.length =
        (runSinglePass att1 artists1 ⟨0, 0, []⟩).failCount) := by
  constructor
  · have hq2nd : ((artists.filter (fun x => ! okP att false x)).filter
        (okP att true)).Nodup := (hnd.filter _).filter _
    have hsucc : (runTwoPass att artists).successUrns =
        artists.filter (okP att false) ++
          (artists.filter (fun x => ! okP att false x)).filter (okP att true) := by
      have hstep : insertAll [] (artists.filter (okP att false)) =
          artists.filter (okP att false) := by
        rw [insertAll_of_disjoint _ [] (hnd.filter _) (by simp)]
        simp
      have hdisj : ∀ x ∈ (artists.filter (fun y => ! okP att false y)).filter
          (okP att true), x ∉ artists.filter (okP att false) := by
        intro x hx hx'
        have h1 := (List.mem_filter.mp (List.mem_filter.mp hx).1).2
        have h2 := (List.mem_filter.mp hx').2
        rw [h2] at h1
        cases h1
      simp only [runTwoPass, pass2_spec, pass1_spec, initState, List.nil_append]
      rw [hstep, insertAll_of_disjoint _ _ hq2nd hdisj]
    have hErrLen : (runTwoPass att artists).errorRows.length =
        ((artists.filter (fun x => ! okP att false x)).filter
          (fun x => ! okP att true x)).length := by
      have : (runTwoPass att artists).errorRows =
          passErrRows att (artists.filter (fun x => ! okP att false x)) := by
        simp [runTwoPass, pass2_spec, pass1_spec, initState]
      rw [this, passErrRows_length]
    have hpart1 := length_filter_partition (okP att false) artists
    have hpart2 := length_filter_partition (okP att true)
      (artists.filter (fun x => ! okP att false x))
    simp only [runSummaryOf]
    rw [hsucc, hErrLen]
    simp only [List.length_append]
    omega
  · have h := runSinglePass_invariant att1 artists1 ⟨0, 0, []⟩
    simp only [List.length_nil] at h
    exact ⟨by omega, by omega⟩

/-- Concrete controllers for the C10 witness: two-pass over ["x", "y"] where
"x" succeeds on pass 1 and "y" fails both passes; single-pass over ["z"]
where "z" fails. -/
def attSummary : Bool → String → Except SCFailure ArtistData := fun _ a =>
  if a = "x" then .ok ⟨3, 1⟩ else .error (.http (some 503) "unavailable")

def attSingle : String → Except SCFailure ArtistData := fun _ =>
  .error (.exc "boom")

/-- Witness for C10's theorem at a concrete input. -/
theorem run_summary_consistent_witness :
    ((runSummaryOf ["x", "y"] (runTwoPass attSummary ["x", "y"])).artists_ok +
        (runSummaryOf ["x", "y"]
          (runTwoPass attSummary ["x", "y"])).artists_failed =
        (runSummaryOf ["x", "y"]
          (runTwoPass attSummary ["x", "y"])).artists_in ∧
      (runSummaryOf ["x", "y"] (runTwoPass attSummary ["x", "y"])).errors_total =
        (runSummaryOf ["x", "y"]
          (runTwoPass attSummary ["x", "y"])).artists_failed) ∧
    ((runSinglePass attSingle ["z"] ⟨0, 0, []⟩).okCount +
        (runSinglePass attSingle ["z"] ⟨0, 0, []⟩).failCount =
        (["z"] : List String).length ∧
      (runSinglePass attSingle ["z"] ⟨0, 0, []⟩).errorRows.length =
        (runSinglePass attSingle ["z"] ⟨0, 0, []⟩).failCount) :=
  run_summary_consistent attSummary attSingle ["x", "y"] ["z"] (by decide)

/-! ## Artist-list loading (src/run_pipeline.py `load_artists_df`,
src/pipeline_run.py `load_artists_df_from_drive`; identical normalization).

Per identifier (already a string): `.str.strip()`, then digit-only values are
rewritten to `soundcloud:users:<digits>` (`str.fullmatch(r"\d+")`), empty
values are dropped, and `drop_duplicates` keeps the first occurrence of each
canonical identifier.  Lean's `Char.isWhitespace`/`Char.isDigit` stand in for
Python's (ASCII fragment; all identifiers in scope are ASCII). -/

def pyStrip (s : String) : String :=
  ⟨((s.data.dropWhile Char.isWhitespace).reverse.dropWhile
      Char.isWhitespace).reverse⟩

/-- `str.fullmatch(r"\d+")`: nonempty and all digits. -/
def isDigitStr (s : String) : Bool :=
  !s.data.isEmpty && s.data.all Char.isDigit

/-- The per-row normalization: strip, then canonicalize digit-only rows. -/
def normalize_urn (s : String) : String :=
  let t := pyStrip s
  if isDigitStr t then "soundcloud:users:" ++ t else t

/-- `drop_duplicates(subset=[col_urn])`: keep the first occurrence. -/
def dedupFirst : List String → List String → List String
  | [], _ => []
  | a :: rest, seen =>
    if a ∈ seen then dedupFirst rest seen else a :: dedupFirst rest (a :: seen)

/-- The loader's urn column: normalize each row, drop empties, deduplicate
keeping first occurrences. -/
def load_artists_df (input : List String) : List String :=
  dedupFirst ((input.map normalize_urn).filter (fun s => s != "")) []

theorem dedupFirst_sublist :
    ∀ (l seen : List String), (dedupFirst l seen).Sublist l := by
  intro l
  induction l with
  | nil => intro seen; exact List.Sublist.refl []
  | cons a rest ih =>
    intro seen
    by_cases h : a ∈ seen
    · rw [dedupFirst, if_pos h]
      exact (ih seen).cons a
    · rw [dedupFirst, if_neg h]
      exact (ih (a :: seen)).cons₂ a

theorem dedupFirst_not_mem_seen :
    ∀ (l seen : List String), ∀ x ∈ dedupFirst l seen, x ∉ seen := by
  intro l
  induction l with
  | nil => intro seen x hx; cases hx
  | cons a rest ih =>
    intro seen x hx
    by_cases h : a ∈ seen
    · rw [dedupFirst, if_pos h] at hx
      exact ih seen x hx
    · rw [dedupFirst, if_neg h] at hx
      rcases List.mem_cons.mp hx with rfl | hx'
      · exact h
      · intro hs
        exact ih (a :: seen) x hx' (List.mem_cons_of_mem a hs)

theorem dedupFirst_nodup :
    ∀ (l seen : List String), (dedupFirst l seen).Nodup := by
  intro l
  induction l with
  | nil => intro seen; exact List.nodup_nil
  | cons a rest ih =>
    intro seen
    by_cases h : a ∈ seen
    · rw [dedupFirst, if_pos h]
      exact ih seen
    · rw [dedupFirst, if_neg h]
      rw [List.nodup_cons]
      exact ⟨fun hmem => dedupFirst_not_mem_seen rest (a :: seen) a hmem
        (List.mem_cons_self a seen), ih (a :: seen)⟩

theorem dedupFirst_complete :
    ∀ (l seen : List String), ∀ x ∈ l, x ∈ seen ∨ x ∈ dedupFirst l seen := by
  intro l
  induction l with
  | nil => intro seen x hx; cases hx
  | cons a rest ih =>
    intro seen x hx
    by_cases h : a ∈ seen
    · rw [dedupFirst, if_pos h]
      rcases List.mem_cons.mp hx with rfl | hx'
      · exact Or.inl h
      · exact ih seen x hx'
    · rw [dedupFirst, if_neg h]
      rcases List.mem_cons.mp hx with rfl | hx'
      · exact Or.inr (List.mem_cons_self x _)
      · rcases ih (a :: seen) x hx' with hs | hd
        · rcases List.mem_cons.mp hs with rfl | hs'
          · exact Or.inr (List.mem_cons_self x _)
          · exact Or.inl hs'
        · exact Or.inr (List.mem_cons_of_mem a hd)

/-- C6 (amended: identifiers are first stripped of surrounding whitespace;
a stripped nonempty pure-digit identifier is normalized to
`soundcloud:users:<digits>`; any other identifier passes through as its
stripped form, with empty rows dropped — the raw "passes through unchanged"
fails for identifiers carrying whitespace, see the counterexample; the
resulting list is deduplicated by canonical identifier preserving
first-occurrence order, [A, B, A] yielding [A, B]). -/
theorem load_artists_df_spec :
    (∀ s : String, pyStrip s = s → s.data ≠ [] →
      s.data.all Char.isDigit = true →
      normalize_urn s = "soundcloud:users:" ++ s) ∧
    (∀ s : String, pyStrip s = s → s.data.all Char.isDigit = false →
      normalize_urn s = s) ∧
    (∀ input : List String,
      (load_artists_df input).Nodup ∧
      (load_artists_df input).Sublist
        ((input.map normalize_urn).filter (fun s => s != "")) ∧
      ∀ x ∈ (input.map normalize_urn).filter (fun s => s != ""),
        x ∈ load_artists_df input) ∧
    load_artists_df ["soundcloud:users:1", "ab", "soundcloud:users:1"] =
      ["soundcloud:users:1", "ab"] := by
  refine ⟨?_, ?_, ?_, ?_⟩
  · intro s hstrip hne hdig
    rw [normalize_urn]
    simp only [hstrip]
    rw [if_pos]
    rw [isDigitStr, hdig]
    simp [List.isEmpty_iff, hne]
  · intro s hstrip hdig
    rw [normalize_urn]
    simp only [hstrip]
    rw [if_neg]
    rw [isDigitStr, hdig]
    simp
  · intro input
    refine ⟨dedupFirst_nodup _ [], dedupFirst_sublist _ [], ?_⟩
    intro x hx
    rcases dedupFirst_complete _ [] x hx with hs | hd
    · cases hs
    · exact hd
  · decide

/-- Witness for C6's theorem at concrete inputs. -/
theorem load_artists_df_spec_witness :
    normalize_urn "123" = "soundcloud:users:123" ∧ normalize_urn "ab" = "ab" :=
  ⟨load_artists_df_spec.1 "123" (by decide) (by decide) (by decide),
   load_artists_df_spec.2.1 "ab" (by decide) (by decide)⟩

/-- Counterexample to C6 as frozen: the non-digit identifier " ab " does not
pass through unchanged — the loader strips its surrounding whitespace. -/
theorem c6_strip_counterexample :
    load_artists_df [" ab "] = ["ab"] ∧ (" ab " : String) ≠ "ab" := by
  exact ⟨by decide, by decide⟩

/-! ## Per-artist profile fetch with one soft-merge refetch
(src/pipeline_run.py `main`, the `user2` block, identical in both passes).

A profile response is a JSON dict whose fields may be absent entirely or
present with null: `Option (Option _)` with `none` = key absent,
`some none` = key present and null.  `user.get(k)` flattens both to `None`
(`Option.join`); `user2.get(k, default)` falls back to `default` only when
the key is absent. -/

structure UserDoc where
  username : Option (Option String)
  followers_count : Option (Option Int)
  track_count : Option (Option Int)
deriving DecidableEq

structure Profile where
  username : Option String
  followers : Option Int
  track_count : Option Int
deriving DecidableEq

/-- The three `user.get(k)` reads after the first fetch. -/
def fetchProfileOnce (u : UserDoc) : Profile :=
  ⟨u.username.join, u.followers_count.join, u.track_count.join⟩

/-- `user2.get(k, default)`: Python `dict.get` with a default — the default
is used only when the key is absent, a present-but-null value is returned
as-is. -/
def getWithDefault {α : Type} (f : Option (Option α)) (d : Option α) :
    Option α :=
  match f with
  | none => d
  | some v => v

/-- The refetch block: if `track_count_total is None or followers is None`
after the first fetch, fetch the profile once more (`refetch` is that second
call's outcome: a document, or a raised exception modelled as `.error`) and
merge with `user2.get(k, previous)`; a raised refetch is swallowed.  The
second component counts profile fetches performed (1 or 2). -/
def resolveProfile (u1 : UserDoc) (refetch : Except Unit UserDoc) :
    Profile × Nat :=
  let p := fetchProfileOnce u1
  if p.track_count = none ∨ p.followers = none then
    match refetch with
    | .ok u2 =>
      (⟨getWithDefault u2.username p.username,
        getWithDefault u2.followers_count p.followers,
        getWithDefault u2.track_count p.track_count⟩, 2)
    | .error _ => (p, 2)
  else (p, 1)

/-- C7 (amended: the soft-merge is at the JSON *key* level — for each field
the refetch value wins whenever the key is present in the second response,
even when that value is null; the first fetch's value is kept only when the
second response omits the key entirely.  The raw claim's "never replacing a
present value from the first fetch with an absent value from the second"
fails when the second response carries an explicit null, see the
counterexample): the profile is refetched exactly once more — and only
then — when follower count or track-count-total is absent after the first
fetch; with the key-level merge rule above; and a failure of the extra fetch
is tolerated, leaving the first fetch's values. -/
theorem resolveProfile_spec (u1 : UserDoc) (refetch : Except Unit UserDoc) :
    ((resolveProfile u1 refetch).2 =
      if (fetchProfileOnce u1).track_count = none ∨
          (fetchProfileOnce u1).followers = none then 2 else 1) ∧
    ((resolveProfile u1 refetch).2 ≤ 2) ∧
    (∀ u2, refetch = .ok u2 →
      ((fetchProfileOnce u1).track_count = none ∨
        (fetchProfileOnce u1).followers = none) →
      ((resolveProfile u1 refetch).1.followers =
          getWithDefault u2.followers_count (fetchProfileOnce u1).followers ∧
        (resolveProfile u1 refetch).1.track_count =
          getWithDefault u2.track_count (fetchProfileOnce u1).track_count) ∧
      (u2.followers_count = none →
        (resolveProfile u1 refetch).1.followers =
          (fetchProfileOnce u1).followers) ∧
      (u2.track_count = none →
        (resolveProfile u1 refetch).1.track_count =
          (fetchProfileOnce u1).track_count)) ∧
    (((fetchProfileOnce u1).track_count = none ∨
        (fetchProfileOnce u1).followers = none) →
      refetch = .error () →
      (resolveProfile u1 refetch).1 = fetchProfileOnce u1) := by
  refine ⟨?_, ?_, ?_, ?_⟩
  · by_cases hc : (fetchProfileOnce u1).track_count = none ∨
        (fetchProfileOnce u1).followers = none
    · cases refetch with
      | ok u2 => simp [resolveProfile, hc]
      | error e => simp [resolveProfile, hc]
    · simp [resolveProfile, hc]
  · by_cases hc : (fetchProfileOnce u1).track_count = none ∨
        (fetchProfileOnce u1).followers = none
    · cases refetch with
      | ok u2 => simp [resolveProfile, hc]
      | error e => simp [resolveProfile, hc]
    · simp [resolveProfile, hc]
  · rintro u2 rfl hc
    refine ⟨⟨?_, ?_⟩, ?_, ?_⟩
    · simp [resolveProfile, hc]
    · simp [resolveProfile, hc]
    · intro h2
      simp [resolveProfile, hc, h2, getWithDefault]
    · intro h2
      simp [resolveProfile, hc, h2, getWithDefault]
  · rintro hc rfl
    simp [resolveProfile, hc]

/-- First fetch: followers present (5), track_count present but null
(triggering the refetch). -/
def u1c : UserDoc := ⟨some (some "x"), some (some 5), some none⟩

/-- Second fetch: followers_count key present with a null value,
track_count now 7. -/
def u2c : UserDoc := ⟨none, some none, some (some 7)⟩

/-- Counterexample to C7 as frozen: the first fetch supplied followers = 5,
the second response's followers_count key is present but null, and the merged
profile's followers is null — a present value from the first fetch is
replaced by an absent (null) one from the second, because `dict.get(k,
default)` only falls back on key absence. -/
theorem c7_null_overwrite_counterexample :
    (fetchProfileOnce u1c).followers = some 5 ∧
    (resolveProfile u1c (.ok u2c)).1.followers = none ∧
    (resolveProfile u1c (.ok u2c)).1.track_count = some 7 := by
  refine ⟨rfl, ?_, ?_⟩ <;> rfl

/-- Witness for C7's theorem at a concrete input: the refetch is merged at
the key level and counts as the single extra fetch. -/
theorem resolveProfile_spec_witness :
    (resolveProfile u1c (.error ())).1 = fetchProfileOnce u1c ∧
    (resolveProfile u1c (.error ())).2 ≤ 2 :=
  ⟨(resolveProfile_spec u1c (.error ())).2.2.2 (Or.inl rfl) rfl,
   (resolveProfile_spec u1c (.error ())).2.1⟩

/-! ## Release-date composition (src/run_pipeline.py and src/pipeline_run.py,
`compose_release_date`).

The three release fields hold JSON values: null, an integer, or a string.
`if y and m and d:` is Python truthiness (null/0/"" are falsy); `int(v)`
succeeds on integers and on digit strings (optionally signed, surrounding
whitespace allowed), raising otherwise — the `except` clause turns a raise
into `None`, so the embedding is a total function into `Option String` and
"never raises" is totality. -/

inductive JVal where
  | vnull : JVal
  | vint : Int → JVal
  | vstr : String → JVal
deriving DecidableEq

def JVal.truthy : JVal → Bool
  | .vnull => false
  | .vint n => n != 0
  | .vstr s => s != ""

def digitsToNat : List Char → Option Nat
  | [] => none
  | cs =>
    cs.foldl (fun acc c =>
      match acc with
      | none => none
      | some n => if c.isDigit then some (n * 10 + (c.toNat - 48)) else none)
      (some 0)

/-- Python `int(str)`: strip, optional sign, decimal digits. -/
def pyToInt (s : String) : Option Int :=
  match (pyStrip s).data with
  | '-' :: rest => (digitsToNat rest).map (fun n => -(n : Int))
  | '+' :: rest => (digitsToNat rest).map (fun n => (n : Int))
  | cs => (digitsToNat cs).map (fun n => (n : Int))

/-- `int(v)` on a JSON value, `none` when it would raise. -/
def JVal.toIntVal : JVal → Option Int
  | .vnull => none
  | .vint n => some n
  | .vstr s => pyToInt s

structure TrackDates where
  release_year : Option JVal
  release_month : Option JVal
  release_day : Option JVal
deriving DecidableEq

/-- `tr.get(k)`: an absent key reads as null. -/
def getJ (f : Option JVal) : JVal := f.getD .vnull

def padZeros (w : Nat) (s : String) : String :=
  if w ≤ s.length then s else ⟨List.replicate (w - s.length) '0'⟩ ++ s

/-- Python's `f"{n:0Nd}"`: minus sign counts toward the total width. -/
def fmtInt (w : Nat) (n : Int) : String :=
  if n < 0 then "-" ++ padZeros (w - 1) (toString n.natAbs)
  else padZeros w (toString n.natAbs)

def compose_release_date (tr : TrackDates) : Option String :=
  let y := getJ tr.release_year
  let m := getJ tr.release_month
  let d := getJ tr.release_day
  if y.truthy && m.truthy && d.truthy then
    match y.toIntVal, m.toIntVal, d.toIntVal with
    | some yi, some mi, some di =>
      some (fmtInt 4 yi ++ "-" ++ fmtInt 2 mi ++ "-" ++ fmtInt 2 di)
    | _, _, _ => none
  else none

/-- C8 (amended: the composed date is produced exactly when all three fields
are present, *truthy* (a present 0, empty string, or null is treated as
missing — the raw "parse as integers" condition is not enough, see the
zero-day counterexample) and parse as integers; any other combination yields
an absent value; and the embedding is a total function, so it never
raises). -/
theorem compose_release_date_spec :
    (∀ tr : TrackDates,
      (compose_release_date tr).isSome = true ↔
        ((getJ tr.release_year).truthy = true ∧
         (getJ tr.release_month).truthy = true ∧
         (getJ tr.release_day).truthy = true ∧
         ((getJ tr.release_year).toIntVal).isSome = true ∧
         ((getJ tr.release_month).toIntVal).isSome = true ∧
         ((getJ tr.release_day).toIntVal).isSome = true)) ∧
    (∀ tr : TrackDates, ∀ yi mi di : Int,
      (getJ tr.release_year).truthy = true →
      (getJ tr.release_month).truthy = true →
      (getJ tr.release_day).truthy = true →
      (getJ tr.release_year).toIntVal = some yi →
      (getJ tr.release_month).toIntVal = some mi →
      (getJ tr.release_day).toIntVal = some di →
      compose_release_date tr =
        some (fmtInt 4 yi ++ "-" ++ fmtInt 2 mi ++ "-" ++ fmtInt 2 di)) ∧
    (∀ tr : TrackDates, tr.release_day = none →
      compose_release_date tr = none) := by
  refine ⟨?_, ?_, ?_⟩
  · intro tr
    rw [compose_release_date]
    by_cases hy : (getJ tr.release_year).truthy = true
    · by_cases hm : (getJ tr.release_month).truthy = true
      · by_cases hd : (getJ tr.release_day).truthy = true
        · simp only [hy, hm, hd, Bool.and_self, if_pos]
          cases hyi : (getJ tr.release_year).toIntVal with
          | none => simp [hyi, hy, hm, hd]
          | some yi =>
            cases hmi : (getJ tr.release_month).toIntVal with
            | none => simp [hyi, hmi, hy, hm, hd]
            | some mi =>
              cases hdi : (getJ tr.release_day).toIntVal with
              | none => simp [hyi, hmi, hdi, hy, hm, hd]
              | some di => simp [hyi, hmi, hdi, hy, hm, hd]
        · simp [hy, hm, hd]
      · simp [hy, hm]
    · simp [hy]
  · intro tr yi mi di hy hm hd hyi hmi hdi
    rw [compose_release_date]
    simp only [hy, hm, hd, Bool.and_self, if_pos, hyi, hmi, hdi]
  · intro tr hday
    rw [compose_release_date]
    simp [getJ, hday, JVal.truthy]

/-- The spec's worked example: year 2024, month 3, day 5. -/
def tr2024 : TrackDates := ⟨some (.vint 2024), some (.vint 3), some (.vint 5)⟩

/-- Witness for C8's theorem: the worked example formats to "2024-03-05". -/
theorem compose_release_date_spec_witness :
    compose_release_date tr2024 = some "2024-03-05" := by
  have h := compose_release_date_spec.2.1 tr2024 2024 3 5 (by decide) (by decide)
    (by decide) (by decide) (by decide) (by decide)
  rw [h]
  decide

/-- Year and month as in the worked example, day present and integral
but zero. -/
def trDay0 : TrackDates := ⟨some (.vint 2024), some (.vint 3), some (.vint 0)⟩

/-- Counterexample to C8 as frozen: all three fields are present and parse
as integers (day = 0), yet the result is absent rather than "2024-03-00" —
`if y and m and d:` treats the integer 0 as missing. -/
theorem c8_zero_day_counterexample :
    trDay0.release_day ≠ none ∧
    (getJ trDay0.release_day).toIntVal = some 0 ∧
    compose_release_date trDay0 = none := by
  refine ⟨by decide, rfl, rfl⟩

/-! ## Album-membership flattening (src/run_pipeline.py and
src/pipeline_run.py, `flatten_album_fields`).

`album_map` maps a track urn to the album summaries containing it; a track
with no membership gets explicit `None` markers (never empty strings) and
`album_count = 0`. -/

structure AlbumInfo where
  album_urn : Option String
  album_title : Option String
  album_permalink_url : Option String
  album_artwork_url : Option String
  album_cover_sig : Option String
deriving DecidableEq

structure FlatAlbumFields where
  in_album : Bool
  album_urns : Option String
  album_titles : Option String
  album_artwork_urls : Option String
  album_cover_sigs : Option String
  album_count : Nat
deriving DecidableEq

/-- `"; ".join([a.get(k) or "" for a in albums if a.get(k)])` followed by
`joined or None`. -/
def joinField (vals : List (Option String)) : Option String :=
  let xs := vals.filterMap (fun ov =>
    match ov with
    | some v => if v = "" then none else some v
    | none => none)
  let j := String.intercalate "; " xs
  if j = "" then none else some j

def flatten_album_fields (track_urn : String)
    (album_map : List (String × List AlbumInfo)) : FlatAlbumFields :=
  let albums := (alookup album_map track_urn).getD []
  if albums.isEmpty then ⟨false, none, none, none, none, 0⟩
  else
    ⟨true,
      joinField (albums.map AlbumInfo.album_urn),
      joinField (albums.map AlbumInfo.album_title),
      joinField (albums.map AlbumInfo.album_artwork_url),
      joinField (albums.map AlbumInfo.album_cover_sig),
      albums.length⟩

/-- C9: a track with no album membership (urn unmapped, or mapped to an
empty list) gets `in_album = false`, `album_count = 0`, and explicit absent
markers (`none`, not empty strings) for the four flattened fields; and
`in_album` is true exactly when `album_count > 0`. -/
theorem flatten_album_fields_spec (track_urn : String)
    (album_map : List (String × List AlbumInfo)) :
    ((alookup album_map track_urn = none ∨
        alookup album_map track_urn = some []) →
      flatten_album_fields track_urn album_map =
        ⟨false, none, none, none, none, 0⟩) ∧
    ((flatten_album_fields track_urn album_map).in_album = true ↔
      0 < (flatten_album_fields track_urn album_map).album_count) := by
  constructor
  · rintro (h | h) <;> simp [flatten_album_fields, h]
  · rw [flatten_album_fields]
    cases h : (alookup album_map track_urn).getD [] with
    | nil => simp
    | cons a rest => simp

/-- Witness for C9's theorem at a concrete input: an empty album map. -/
theorem flatten_album_fields_spec_witness :
    flatten_album_fields "t" [] = ⟨false, none, none, none, none, 0⟩ ∧
    ((flatten_album_fields "t" []).in_album = true ↔
      0 < (flatten_album_fields "t" []).album_count) :=
  ⟨(flatten_album_fields_spec "t" []).1 (Or.inl rfl),
   (flatten_album_fields_spec "t" []).2⟩

end SoundcloudPipeline
